import Mathlib

/-!
Verification of the OSARA parameter UI core (src/paramsUi.cpp, src/fxChain.cpp)
against its natural-language specification.

The development shallowly embeds the relevant C++ into Lean:
 * `FxIterator` (paramsUi.cpp, lines 1194-1341) becomes a step function on an
   explicit state; the host tree queried through
   `TrackFX_GetCount` / `TakeFX_GetCount` / `*FX_GetNamedConfigParm
   ("container_count")` is modelled by an `FxNode` tree carried in each stack
   frame, with the host answering the child count of the node the iterator
   currently points at.
 * `ParamsDialog::onSliderChange` (lines 374-405) becomes a fuel-indexed loop
   over exact rationals (C++ doubles are modelled as `ℚ`); the fuel is chosen
   large enough to cover every in-range candidate, and the claims proved about
   the loop hold for every fuel value.
 * the `Param` constructors and `FxNamedConfigParam::getValue`,
   `ReaperObjVolParam::setValueFromEdited` and `FxParams::getParamName`
   become plain functions of the host-reported inputs.
 * `shortenFxName` (fxChain.cpp, lines 83-100) is the ECMAScript regex
   `^(\w+): (.+?)( \(.*?\))?$` applied with `regex_search`, embedded as a
   direct string function implementing the same (lazy) match semantics.
-/

set_option linter.unusedVariables false

/-! ### FxIterator (paramsUi.cpp lines 1194-1341) -/

/-- A node of the host's effect tree: an effect, possibly a container holding
an ordered list of child effects.  The host is modelled as answering the
`container_count` query for the currently yielded node with the length of its
child list. -/
inductive FxNode where
  | node : List FxNode → FxNode

/-- The children of an effect node. -/
def FxNode.children : FxNode → List FxNode
  | .node cs => cs

/-- C++ `FxIterator::StackItem`, plus the `nodes` field holding the host-side
sibling list for this level (the model of the host tree; the C++ object reads
this information from REAPER instead). -/
structure StackItem where
  indexInContainer : Int
  containerCount : Int
  containerFxIndex : Int
  multiplier : Int
  nodes : List FxNode

/-- The mutable state of a C++ `FxIterator`.  `recFx` is the C++ field `rec`
(renamed because `rec` is reserved in Lean). The head of `stack` is
`stack.back()` in the C++. -/
structure FxIterState where
  recFx : Bool
  fxIndex : Int
  containedCount : Nat
  stack : List StackItem

/-- The node the head frame currently points at (host-side view). -/
def currentNode (item : StackItem) : FxNode :=
  item.nodes.getD item.indexInContainer.toNat (FxNode.node [])

/-- C++ `FxIterator::FxIterator`: one frame with `indexInContainer = -1` so
that the first `next()` moves to effect 0; `containerCount` is the host's
top-level effect count. -/
def fxIterInit (tree : List FxNode) : FxIterState :=
  { recFx := false, fxIndex := -1, containedCount := 0,
    stack := [{ indexInContainer := -1, containerCount := (tree.length : Int),
                containerFxIndex := 0, multiplier := 1, nodes := tree }] }

/-- The base offset the C++ adds in `success()`: `0x1000000` for the
input/monitoring (rec) tree, `0` otherwise. -/
def recBase (s : FxIterState) : Int := if s.recFx then 0x1000000 else 0

/-- C++ `FxIterator::success` (lines 1291-1313): cache the flat index for the
current effect and the host-reported `container_count` at that index. -/
def fxIterSuccess (s : FxIterState) : FxIterState :=
  match s.stack with
  | [] => s
  | item :: rest =>
    { s with
      fxIndex :=
        if rest.isEmpty then recBase s + item.indexInContainer
        else recBase s + (item.indexInContainer + 1) * item.multiplier +
          item.containerFxIndex,
      containedCount := (currentNode item).children.length }

/-- The `for (;;)` loop of C++ `FxIterator::next`: increment the sibling
cursor of the innermost frame, popping exhausted frames; `none` when every
frame has been popped. -/
def advanceFrames : List StackItem → Option (List StackItem)
  | [] => none
  | f :: rest =>
    if f.indexInContainer + 1 < f.containerCount then
      some ({ f with indexInContainer := f.indexInContainer + 1 } :: rest)
    else advanceFrames rest

/-- The root frame of the input/monitoring tree pushed by C++
`FxIterator::firstRec` (all other fields keep their defaults). -/
def recRootItem (recTree : List FxNode) : StackItem :=
  { indexInContainer := 0, containerCount := (recTree.length : Int),
    containerFxIndex := 0, multiplier := 1, nodes := recTree }

/-- C++ `FxIterator::firstRec` (lines 1316-1327): enter the input/monitoring
tree if it is nonempty. -/
def fxIterFirstRec (recTree : List FxNode) (s : FxIterState) : Option FxIterState :=
  if 0 < recTree.length then
    some (fxIterSuccess { s with recFx := true, stack := [recRootItem recTree] })
  else none

/-- The frame C++ `FxIterator::next` pushes when the previous effect was a
container (`sub` in the C++): a top-level container gets
`containerFxIndex = 0x2000000 + current.indexInContainer + 1`, a nested one
the parent's cached flat index; the new multiplier is
`current.multiplier * (current.containerCount + 1)`. -/
def enterSub (s : FxIterState) (current : StackItem) (rest : List StackItem) : StackItem :=
  { indexInContainer := 0,
    containerCount := (s.containedCount : Int),
    containerFxIndex :=
      if rest.isEmpty then 0x2000000 + current.indexInContainer + 1
      else s.fxIndex,
    multiplier := current.multiplier * (current.containerCount + 1),
    nodes := (currentNode current).children }

/-- Entering a container: push `sub` and immediately yield (`success`). -/
def enterFrame (s : FxIterState) (current : StackItem) (rest : List StackItem) :
    FxIterState :=
  fxIterSuccess { s with stack := enterSub s current rest :: current :: rest }

/-- C++ `FxIterator::next` (lines 1210-1248).  `isTrack` selects the
`MediaTrack*` instantiation (which alone may fall through to the rec tree);
`recTree` is the host's input/monitoring effect list.  `none` models
`next()` returning `false`. -/
def fxIterNext (isTrack : Bool) (recTree : List FxNode) (s : FxIterState) :
    Option FxIterState :=
  if s.containedCount ≠ 0 then
    match s.stack with
    | [] => none
    | current :: rest => some (enterFrame s current rest)
  else
    match advanceFrames s.stack with
    | some st => some (fxIterSuccess { s with stack := st })
    | none =>
      if isTrack && !s.recFx then fxIterFirstRec recTree { s with stack := [] }
      else none

/-- C++ `FxIterator::getLevel`: the stack depth. -/
def fxIterLevel (s : FxIterState) : Nat := s.stack.length

/-- The iterator state after `n` calls to `next()`; `none` once `next()` has
reported exhaustion. -/
def fxIterSteps (isTrack : Bool) (recTree tree : List FxNode) : Nat → Option FxIterState
  | 0 => some (fxIterInit tree)
  | n + 1 => (fxIterSteps isTrack recTree tree n).bind (fxIterNext isTrack recTree)

/-- Transcription of the claim's multiplier derivation: the multiplier of the
head frame, recomputed from the parent frames (root multiplier is 1, each new
level multiplies by `parent.containerCount + 1`). -/
def claimMult : List StackItem → Int
  | [] => 1
  | [_] => 1
  | _ :: p :: rest => claimMult (p :: rest) * (p.containerCount + 1)

/-- Transcription of the claim's flat-index formula for the node denoted by
the head frame: root level is `base + indexInContainer`; a level entered from
the root uses `containerFxIndex = 0x2000000 + parent.indexInContainer + 1`;
deeper levels use the parent's own flat index. -/
def claimIndex (base : Int) : List StackItem → Int
  | [] => 0
  | [f] => base + f.indexInContainer
  | [f, p] =>
    base + (f.indexInContainer + 1) * (p.containerCount + 1) +
      (0x2000000 + p.indexInContainer + 1)
  | f :: p :: r :: rest =>
    base + (f.indexInContainer + 1) * claimMult (f :: p :: r :: rest) +
      claimIndex base (p :: r :: rest)

/-- Invariant tying each frame's stored `multiplier` and `containerFxIndex`
to the claim's recomputation from the parent frames. -/
def stackOk (base : Int) : List StackItem → Prop
  | [] => True
  | [f] => f.multiplier = 1
  | [f, p] =>
    f.multiplier = p.containerCount + 1 ∧
    f.containerFxIndex = 0x2000000 + p.indexInContainer + 1 ∧
    p.multiplier = 1
  | f :: p :: r :: rest =>
    f.multiplier = claimMult (f :: p :: r :: rest) ∧
    f.containerFxIndex = claimIndex base (p :: r :: rest) ∧
    stackOk base (p :: r :: rest)

/-- State invariant: the stack is consistent and the cached `fxIndex` agrees
with the claim's formula. -/
def iterInv (s : FxIterState) : Prop :=
  stackOk (recBase s) s.stack ∧ s.fxIndex = claimIndex (recBase s) s.stack

/-- The effect tree `[A, B(container: [C, D]), E]` from the specification's
testable properties. -/
def c2tree : List FxNode :=
  [FxNode.node [], FxNode.node [FxNode.node [], FxNode.node []], FxNode.node []]

/-- The position path and level of the currently yielded node: sibling indices
from the root down, plus `getLevel()`. -/
def iterYield (s : FxIterState) : List Int × Nat :=
  ((s.stack.map StackItem.indexInContainer).reverse, s.stack.length)

/-- The concrete state used to witness the flat-index theorem: the iterator on
`c2tree` after three `next()` calls (the node `C` inside the container `B`). -/
def c1WitnessState : FxIterState :=
  (fxIterSteps false [] c2tree 3).getD (fxIterInit c2tree)

/-! ### Value navigator: ParamsDialog::onSliderChange (paramsUi.cpp lines 374-405) -/

/-- The `Param` fields the navigator reads, with the formatter
(`getValueText`) as a function.  C++ doubles are modelled as exact
rationals. -/
structure NavParam where
  min : ℚ
  max : ℚ
  step : ℚ
  largeStep : ℚ
  getValueText : ℚ → String

/-- The `for` loop of `onSliderChange` (lines 389-402).  `val` is
`this->val` (already set to the requested first candidate), `stepv` the
signed step, `valText` the cached text of the pre-step value; `newVal` and
`steps` are the loop variables.  Returns the value committed by
`setValue(this->val)`.  The loop always terminates in C++ whenever
`stepv ≠ 0` (each iteration moves the candidate by `stepv`); `fuel` makes
that termination explicit, and `onSliderChange` passes enough fuel to cover
every in-range candidate. -/
def snapLoop (p : NavParam) (val stepv : ℚ) (valText : String) :
    Nat → ℚ → Nat → ℚ
  | 0, _, _ => val
  | fuel + 1, newVal, steps =>
    if p.min ≤ newVal ∧ newVal ≤ p.max then
      if p.getValueText newVal = "" then val
      else if p.getValueText newVal ≠ valText then newVal
      else snapLoop p val stepv valText fuel (val + stepv * (steps : ℚ)) (steps + 1)
    else val

/-- Fuel bound for `snapLoop`: at least the number of step-multiples that fit
in the parameter range, plus slack (for a positive step and `min ≤ max` the
candidate is out of range before the fuel runs out). -/
def sliderFuel (p : NavParam) : Nat := ((p.max - p.min) / p.step).num.toNat + 2

/-- C++ `ParamsDialog::onSliderChange` (lines 374-405): reject an unchanged or
out-of-range request, pick the step sign, run the snapping loop starting from
the requested value, and commit the result (`none` models the early `return`
with no `setValue` call; `some v` models `setValue(v)`). -/
def onSliderChange (p : NavParam) (val : ℚ) (valText : String) (newVal : ℚ) :
    Option ℚ :=
  if newVal = val ∨ newVal < p.min ∨ p.max < newVal then none
  else
    some (snapLoop p newVal (if newVal < val then -p.step else p.step) valText
      (sliderFuel p) newVal 1)

/-- A parameter whose formatter returns the same text for every value, used
to exhibit the behaviour of the snapping loop when the range runs out before
a text-distinct candidate is found (range `[0, 1]`, step `3/5`). -/
def navDemoParam : NavParam :=
  { min := 0, max := 1, step := 3/5, largeStep := 1,
    getValueText := fun _ => "x" }

/-! ### Param constructors (paramsUi.cpp lines 131-307, 796-925) -/

/-- The `Param` fields set by the constructors (C++ doubles as `ℚ`). -/
structure ParamFields where
  min : ℚ
  max : ℚ
  step : ℚ
  largeStep : ℚ
  isEditable : Bool

/-- `ReaperObjToggleParam::ReaperObjToggleParam` (lines 133-139). -/
def toggleParamFields : ParamFields :=
  { min := 0, max := 1, step := 1, largeStep := 1, isEditable := false }

/-- `ReaperObjVolParam::ReaperObjVolParam` (lines 167-178); 0.002 and 0.1 are
taken as exact decimals. -/
def volParamFields : ParamFields :=
  { min := 0, max := 4, step := 2/1000, largeStep := 1/10, isEditable := true }

/-- `ReaperObjPanParam::ReaperObjPanParam` (lines 226-233). -/
def panParamFields : ParamFields :=
  { min := -1, max := 1, step := 1/100, largeStep := 1/10, isEditable := true }

/-- `ReaperObjLenParam::ReaperObjLenParam` (lines 264-272). -/
def lenParamFields : ParamFields :=
  { min := 0, max := 500, step := 2/100, largeStep := 10, isEditable := true }

/-- Truncation toward zero, the semantics of the C++ cast
`int(largeStep / step)` on a double. -/
def truncQ (q : ℚ) : ℤ := if q < 0 then -⌊-q⌋ else ⌊q⌋

/-- The step-size synthesis in `FxParam::FxParam` (lines 804-832).  The host
call `*FX_GetParameterStepSizes` leaves `step`/`largeStep` at `0` when it
cannot fetch them, so `s = 0` (resp. `l = 0`) models "not reported".
Returns the resulting `(step, largeStep)`. -/
def fxParamSteps (mn mx s l : ℚ) : ℚ × ℚ :=
  if s ≠ 0 then
    if l = 0 then
      if s * ((truncQ (((mx - mn) / 50) / s) : ℤ) : ℚ) = 0 then (s, s)
      else (s, s * ((truncQ (((mx - mn) / 50) / s) : ℤ) : ℚ))
    else (s, l)
  else ((mx - mn) / 1000, ((mx - mn) / 1000) * 20)

/-- All `Param` fields set by `FxParam::FxParam` for host-reported
`min`/`max`/`step`/`largeStep`. -/
def fxParamFields (mn mx s l : ℚ) : ParamFields :=
  { min := mn, max := mx, step := (fxParamSteps mn mx s l).1,
    largeStep := (fxParamSteps mn mx s l).2, isEditable := true }

/-- `FxNamedConfigParam::FxNamedConfigParam` (lines 879-894): an enumerated
parameter over an N-entry `(displayLabel, rawToken)` table has
`min = 0`, `max = N - 1`, `step = largeStep = 1`, and is not editable. -/
def fxNamedConfigParamFields (values : List (String × String)) : ParamFields :=
  { min := 0, max := (values.length : ℚ) - 1, step := 1, largeStep := 1,
    isEditable := false }

/-- `TOGGLE_FX_NAMED_CONFIG_PARAM_VALUES` (lines 927-930). -/
def toggleFxNamedConfigParamValues : List (String × String) :=
  [("off", "0"), ("on", "1")]

/-- `REAEQ_BAND_TYPE_VALUES` (lines 931-943). -/
def reaEqBandTypeValues : List (String × String) :=
  [("low shelf", "0"), ("high shelf", "1"), ("band", "8"), ("low pass", "3"),
   ("high pass", "4"), ("all pass", "5"), ("notch", "6"), ("band pass", "7"),
   ("parallel band pass", "10"), ("band (alt)", "9"), ("band (alt 2)", "2")]

/-- The scan loop of `FxNamedConfigParam::getValue` (lines 904-909): the
first index whose raw token equals the host-reported string. -/
def lookupOrdinal (raw : String) : List (String × String) → Option Nat
  | [] => none
  | v :: rest =>
    if v.2 = raw then some 0 else (lookupOrdinal raw rest).map (· + 1)

/-- `FxNamedConfigParam::getValue` (lines 896-910): the empty string (host
wrote nothing) and an unrecognized token both yield ordinal 0; otherwise the
ordinal of the first matching token. -/
def fxNamedConfigGetValue (values : List (String × String)) (raw : String) : ℚ :=
  if raw = "" then 0
  else
    match lookupOrdinal raw values with
    | some i => (i : ℚ)
    | none => 0

/-! ### ReaperObjVolParam value plumbing (paramsUi.cpp lines 165-222) -/

/-- `ReaperObjVolParam::setValue` (lines 198-205): the raw value written to
the backing store, negated when the polarity flag `flipSign` is set. -/
def volSetRaw (flip : Bool) (v : ℚ) : ℚ := if flip then -v else v

/-- `ReaperObjVolParam::getValue` (lines 180-186): read the raw backing value
and negate it back when `flipSign` is set. -/
def volGetValue (flip : Bool) (raw : ℚ) : ℚ := if flip then -raw else raw

/-- `ReaperObjVolParam::setValueFromEdited` (lines 207-214): text starting
with "-inf" (`text.compare(0, 4, "-inf") == 0`) writes the mute value 0;
anything else goes through the dB parser (`DB2VAL(atof(...))`, external WDL
code abstracted as `parseDb`).  Returns the new raw backing value. -/
def volSetValueFromEdited (flip : Bool) (parseDb : String → ℚ) (text : String) : ℚ :=
  if text.toList.take 4 = ['-', 'i', 'n', 'f'] then volSetRaw flip 0
  else volSetRaw flip (parseDb text)

/-! ### shortenFxName (fxChain.cpp lines 83-100) -/

/-- ECMAScript `\w`: ASCII letters, digits and underscore. -/
def isWordChar (c : Char) : Bool := c.isAlphanum || c = '_'

/-- ECMAScript line terminators, which `.` does not match. -/
def isLineTerm (c : Char) : Bool :=
  c = Char.ofNat 10 || c = Char.ofNat 13 || c = Char.ofNat 0x2028 ||
    c = Char.ofNat 0x2029

/-- Index of the first occurrence of the two-character pattern `" ("`
(`none` when the pattern does not occur). -/
def findOpenParen : List Char → Option Nat
  | [] => none
  | c :: rest =>
    if c = ' ' ∧ rest.head? = some '(' then some 0
    else (findOpenParen rest).map (· + 1)

/-- Where the regex `^(\w+): (.+?)( \(.*?\))?$` splits `body` into the lazy
group 2 and the optional trailing ` \(.*?\)` group: the lazy `(.+?)` stops at
the first position `k ≥ 1` where the remaining tail can be consumed, i.e. at
the first `" ("` occurrence when the final character is `')'` (the group-3
option), else at the end of the string (the empty-option for group 3). -/
def shortenQualSplit (body : List Char) : Nat :=
  if body.getLast? = some ')' then
    match findOpenParen (List.drop 1 body) with
    | some i => i + 1
    | none => body.length
  else body.length

/-- The output of `shortenFxName` once the scrutinee has been split as
`vendor ++ ": " ++ body`: the regex fails (output unchanged) when the vendor
part is empty, the body is empty, or the body contains a line terminator
(`.` matches no line terminator); otherwise group 2 is emitted, plus group 3
when the vendor is exactly "JS". -/
def shortenCore (nm : String) (w body : List Char) : String :=
  if w.isEmpty || body.isEmpty || body.any isLineTerm then nm
  else
    String.mk (if w = ['J', 'S'] then
      List.take (shortenQualSplit body) body ++ List.drop (shortenQualSplit body) body
    else List.take (shortenQualSplit body) body)

/-- `shortenFxName` (fxChain.cpp lines 83-100): apply the anchored ECMAScript
regex `^(\w+): (.+?)( \(.*?\))?$`; on failure emit the name unchanged, on
success emit group 2, keeping the parenthesised group 3 only for the "JS"
vendor prefix.  `\w+` is the maximal leading word-character run (it must be
followed by `': '`), and the lazy splits are computed by
`shortenQualSplit`. -/
def shortenFxName (nm : String) : String :=
  match nm.data.dropWhile isWordChar with
  | ':' :: ' ' :: body => shortenCore nm (nm.data.takeWhile isWordChar) body
  | _ => nm

/-! ### FxParams::getParamName (paramsUi.cpp lines 767-782) -/

/-- Decimal rendering of a natural number (the `ostringstream << param` in
`getParamName`), most significant digit first; structural fuel (any fuel
above the number itself is enough). -/
def natDecimalAux : Nat → Nat → List Char → List Char
  | 0, _, acc => acc
  | fuel + 1, n, acc =>
    if n < 10 then Char.ofNat (48 + n % 10) :: acc
    else natDecimalAux fuel (n / 10) (Char.ofNat (48 + n % 10) :: acc)

/-- Decimal digits of `n`, most significant first. -/
def natDecimal (n : Nat) : List Char := natDecimalAux (n + 1) n []

/-- Numeric value of a decimal digit character (proof gadget). -/
def digitVal (c : Char) : Nat := c.toNat - 48

/-- Value of a most-significant-first digit string (proof gadget). -/
def decValue (cs : List Char) : Nat :=
  cs.foldl (fun a c => 10 * a + digitVal c) 0

/-- Decimal digit test on code points (proof gadget). -/
def isDigitCh (c : Char) : Bool := decide (48 ≤ c.toNat) && decide (c.toNat ≤ 57)

/-- Recover the parameter number from a display name of the form
`base ++ " (" ++ digits ++ ")"` (proof gadget used to show the names are
injective in the parameter number). -/
def extractParamNum (cs : List Char) : Option Nat :=
  if cs.reverse.head? = some ')' ∧
      (cs.reverse.tail.dropWhile isDigitCh).take 2 = ['(', ' '] ∧
      cs.reverse.tail.takeWhile isDigitCh ≠ [] then
    some (decValue (cs.reverse.tail.takeWhile isDigitCh).reverse)
  else none

/-- `FxParams::getParamName` (paramsUi.cpp lines 767-782): named-config
parameters come first, then the host's numbered parameters; the parameter
number is always appended as `" (" << param << ")"`. -/
def getParamName (namedNames : List (List Char)) (hostName : Nat → List Char)
    (p : Nat) : String :=
  String.mk
    ((if h : p < namedNames.length then namedNames.get ⟨p, h⟩
      else hostName (p - namedNames.length)) ++
      (' ' :: '(' :: (natDecimal p ++ [')'])))

/-! ### Theorems: FxIterator flat index and traversal order -/

theorem fxIterSuccess_stack (s : FxIterState) : (fxIterSuccess s).stack = s.stack := by
  unfold fxIterSuccess
  cases h : s.stack with
  | nil => exact h
  | cons item rest => rfl

theorem fxIterSuccess_recFx (s : FxIterState) : (fxIterSuccess s).recFx = s.recFx := by
  unfold fxIterSuccess
  cases h : s.stack with
  | nil => rfl
  | cons item rest => rfl

theorem fxIterSuccess_cons (s : FxIterState) (item : StackItem) (rest : List StackItem)
    (h : s.stack = item :: rest) :
    fxIterSuccess s = { s with
      fxIndex :=
        if rest.isEmpty then recBase s + item.indexInContainer
        else recBase s + (item.indexInContainer + 1) * item.multiplier +
          item.containerFxIndex,
      containedCount := (currentNode item).children.length } := by
  unfold fxIterSuccess
  rw [h]

theorem stackOk_tail (base : Int) (f : StackItem) (t : List StackItem)
    (h : stackOk base (f :: t)) : stackOk base t := by
  match t with
  | [] => trivial
  | [p] => exact h.2.2
  | p :: r :: rest => exact h.2.2

theorem stackOk_head_mult (base : Int) (f : StackItem) (t : List StackItem)
    (h : stackOk base (f :: t)) : f.multiplier = claimMult (f :: t) := by
  match t with
  | [] => exact h
  | [p] =>
    show f.multiplier = claimMult [p] * (p.containerCount + 1)
    rw [show claimMult [p] = 1 from rfl, one_mul]
    exact h.1
  | p :: r :: rest => exact h.1

theorem claimIndex_cons (base : Int) (f p : StackItem) (t : List StackItem)
    (h : stackOk base (f :: p :: t)) :
    base + (f.indexInContainer + 1) * f.multiplier + f.containerFxIndex =
      claimIndex base (f :: p :: t) := by
  match t with
  | [] => rw [h.1, h.2.1]; rfl
  | r :: rest => rw [h.1, h.2.1]; rfl

theorem fxIterSuccess_fxIndex (s : FxIterState) (f : StackItem) (t : List StackItem)
    (hs : s.stack = f :: t) (hok : stackOk (recBase s) (f :: t)) :
    (fxIterSuccess s).fxIndex = claimIndex (recBase s) (f :: t) := by
  rw [fxIterSuccess_cons s f t hs]
  match t with
  | [] => rfl
  | p :: t' =>
    show (if (p :: t').isEmpty then recBase s + f.indexInContainer
        else recBase s + (f.indexInContainer + 1) * f.multiplier +
          f.containerFxIndex) = claimIndex (recBase s) (f :: p :: t')
    rw [if_neg (by simp)]
    exact claimIndex_cons (recBase s) f p t' hok

theorem iterInv_success (s : FxIterState) (f : StackItem) (t : List StackItem)
    (hstk : s.stack = f :: t) (hok : stackOk (recBase s) (f :: t)) :
    iterInv (fxIterSuccess s) := by
  have h1 : recBase (fxIterSuccess s) = recBase s := by
    unfold recBase
    rw [fxIterSuccess_recFx]
  constructor
  · rw [h1, fxIterSuccess_stack, hstk]; exact hok
  · rw [h1, fxIterSuccess_stack, hstk]
    exact fxIterSuccess_fxIndex s f t hstk hok

theorem advanceFrames_some_cons :
    ∀ (l st : List StackItem), advanceFrames l = some st → ∃ f t, st = f :: t := by
  intro l
  induction l with
  | nil => intro st h; exact Option.noConfusion h
  | cons f rest ih =>
    intro st h
    unfold advanceFrames at h
    by_cases hlt : f.indexInContainer + 1 < f.containerCount
    · rw [if_pos hlt] at h
      injection h with h
      exact ⟨_, _, h.symm⟩
    · rw [if_neg hlt] at h
      exact ih st h

theorem stackOk_advance (base : Int) :
    ∀ (l l' : List StackItem), stackOk base l → advanceFrames l = some l' →
      stackOk base l' := by
  intro l
  induction l with
  | nil => intro l' _ h; exact Option.noConfusion h
  | cons f rest ih =>
    intro l' hok h
    unfold advanceFrames at h
    by_cases hlt : f.indexInContainer + 1 < f.containerCount
    · rw [if_pos hlt] at h
      injection h with h
      subst h
      match rest with
      | [] => exact hok
      | [p] => exact hok
      | p :: r :: t => exact hok
    · rw [if_neg hlt] at h
      exact ih l' (stackOk_tail base f rest hok) h

theorem stackOk_enter (s : FxIterState) (current : StackItem) (rest : List StackItem)
    (hok : stackOk (recBase s) (current :: rest))
    (hidx : s.fxIndex = claimIndex (recBase s) (current :: rest)) :
    stackOk (recBase s) (enterSub s current rest :: current :: rest) := by
  match rest with
  | [] =>
    refine ⟨?_, ?_, ?_⟩
    · show current.multiplier * (current.containerCount + 1) =
        current.containerCount + 1
      rw [show current.multiplier = 1 from hok, one_mul]
    · rfl
    · exact hok
  | p :: t =>
    refine ⟨?_, ?_, ?_⟩
    · show current.multiplier * (current.containerCount + 1) =
        claimMult (current :: p :: t) * (current.containerCount + 1)
      rw [stackOk_head_mult (recBase s) current (p :: t) hok]
    · show (if (p :: t).isEmpty then 0x2000000 + current.indexInContainer + 1
          else s.fxIndex) = claimIndex (recBase s) (current :: p :: t)
      rw [if_neg (by simp)]
      exact hidx
    · exact hok

theorem fxIterNext_inv (isTrack : Bool) (recTree : List FxNode) (s s' : FxIterState)
    (hinv : iterInv s) (h : fxIterNext isTrack recTree s = some s') : iterInv s' := by
  obtain ⟨hok0, hidx0⟩ := hinv
  unfold fxIterNext at h
  by_cases hc : s.containedCount ≠ 0
  · rw [if_pos hc] at h
    rcases hstk : s.stack with _ | ⟨current, rest⟩
    · rw [hstk] at h; exact Option.noConfusion h
    · rw [hstk] at h
      rw [hstk] at hok0 hidx0
      injection h with h
      subst h
      have hok2 : stackOk (recBase s) (enterSub s current rest :: current :: rest) :=
        stackOk_enter s current rest hok0 hidx0
      exact iterInv_success { s with stack := enterSub s current rest :: current :: rest }
        (enterSub s current rest) (current :: rest) rfl hok2
  · rw [if_neg hc] at h
    rcases hadv : advanceFrames s.stack with _ | st
    · rw [hadv] at h
      by_cases hb : isTrack && !s.recFx
      · rw [if_pos hb] at h
        unfold fxIterFirstRec at h
        by_cases hlen : 0 < recTree.length
        · rw [if_pos hlen] at h
          injection h with h
          subst h
          exact iterInv_success _ (recRootItem recTree) [] rfl rfl
        · rw [if_neg hlen] at h; exact Option.noConfusion h
      · rw [if_neg hb] at h; exact Option.noConfusion h
    · rw [hadv] at h
      injection h with h
      subst h
      obtain ⟨f, t, hst⟩ := advanceFrames_some_cons s.stack st hadv
      subst hst
      have hok : stackOk (recBase s) (f :: t) :=
        stackOk_advance (recBase s) s.stack (f :: t) hok0 hadv
      exact iterInv_success { s with stack := f :: t } f t rfl hok

theorem fxIterSteps_inv (isTrack : Bool) (recTree tree : List FxNode) :
    ∀ (n : Nat) (s : FxIterState),
      fxIterSteps isTrack recTree tree n = some s → iterInv s := by
  intro n
  induction n with
  | zero =>
    intro s h
    injection h with h
    subst h
    exact ⟨rfl, rfl⟩
  | succ n ih =>
    intro s h
    rw [fxIterSteps] at h
    rcases h0 : fxIterSteps isTrack recTree tree n with _ | s0
    · rw [h0] at h; exact Option.noConfusion h
    · rw [h0] at h
      exact fxIterNext_inv isTrack recTree s0 s (ih s0 h0) h

/-- C1: for every node yielded by the FX iterator, the cached flat index
equals the claim's formula recomputed from the stack: at root level of the
normal tree it is `indexInContainer` (rec tree: `+ 0x1000000`); at any nested
level it is `base_offset + (indexInContainer + 1) * multiplier +
containerFxIndex`, where a new level's multiplier is
`parent.multiplier * (parent.containerCount + 1)` (root multiplier 1),
`containerFxIndex` is `0x2000000 + parent.indexInContainer + 1` for a
container entered from the root level and the parent's own flat index for
deeper levels (`claimIndex`/`claimMult` transcribe exactly this). -/
theorem fxIterator_flat_index (isTrack : Bool) (recTree tree : List FxNode)
    (n : Nat) (s : FxIterState)
    (h : fxIterSteps isTrack recTree tree n = some s) :
    s.fxIndex = claimIndex (recBase s) s.stack :=
  (fxIterSteps_inv isTrack recTree tree n s h).2

theorem fxIterator_flat_index_witness :
    fxIterSteps false [] c2tree 3 = some c1WitnessState ∧
    c1WitnessState.fxIndex = claimIndex (recBase c1WitnessState) c1WitnessState.stack :=
  ⟨rfl, fxIterator_flat_index false [] c2tree 3 c1WitnessState rfl⟩

/-- C2: for the effect tree `[A, B(container: [C, D]), E]` the iterator yields
the nodes in order `A, B, C, D, E` (position paths `[0], [1], [1,0], [1,1],
[2]`) with levels `1, 1, 2, 2, 1`; after yielding the container `B`
(`containedCount = 2`) the very next `next()` yields `B`'s first child — no
yield is skipped — and the sixth call reports exhaustion. -/
theorem fxIterator_traversal_order :
    (fxIterSteps false [] c2tree 1).map iterYield = some ([0], 1) ∧
    (fxIterSteps false [] c2tree 2).map iterYield = some ([1], 1) ∧
    (fxIterSteps false [] c2tree 2).map FxIterState.containedCount = some 2 ∧
    (fxIterSteps false [] c2tree 3).map iterYield = some ([1, 0], 2) ∧
    (fxIterSteps false [] c2tree 4).map iterYield = some ([1, 1], 2) ∧
    (fxIterSteps false [] c2tree 5).map iterYield = some ([2], 1) ∧
    (fxIterSteps false [] c2tree 6).isNone = true := by
  exact ⟨by decide, by decide, by decide, by decide, by decide, by decide, by decide⟩

/-! ### Theorems: the value navigator (C3, C4) -/

theorem snapLoop_result (p : NavParam) (val stepv : ℚ) (valText : String) :
    ∀ (fuel : Nat) (cand : ℚ) (steps : Nat),
      snapLoop p val stepv valText fuel cand steps = val ∨
      p.getValueText (snapLoop p val stepv valText fuel cand steps) ≠ valText := by
  intro fuel
  induction fuel with
  | zero => intro cand steps; exact Or.inl rfl
  | succ fuel ih =>
    intro cand steps
    rw [snapLoop]
    by_cases h1 : p.min ≤ cand ∧ cand ≤ p.max
    · rw [if_pos h1]
      by_cases h2 : p.getValueText cand = ""
      · rw [if_pos h2]; exact Or.inl rfl
      · rw [if_neg h2]
        by_cases h3 : p.getValueText cand ≠ valText
        · rw [if_pos h3]; exact Or.inr h3
        · rw [if_neg h3]; exact ih _ _
    · rw [if_neg h1]; exact Or.inl rfl

theorem snapLoop_const (p : NavParam) (val stepv : ℚ) (valText : String)
    (hall : ∀ j : Nat,
      p.min ≤ val + stepv * (j : ℚ) ∧ val + stepv * (j : ℚ) ≤ p.max →
      p.getValueText (val + stepv * (j : ℚ)) = valText) :
    ∀ (fuel : Nat) (steps : Nat) (cand : ℚ) (j : Nat),
      cand = val + stepv * (j : ℚ) →
      snapLoop p val stepv valText fuel cand steps = val := by
  intro fuel
  induction fuel with
  | zero => intro steps cand j hc; rfl
  | succ fuel ih =>
    intro steps cand j hc
    rw [snapLoop]
    by_cases h1 : p.min ≤ cand ∧ cand ≤ p.max
    · rw [if_pos h1]
      have ht : p.getValueText cand = valText := by
        rw [hc]
        exact hall j (hc ▸ h1)
      by_cases h2 : p.getValueText cand = ""
      · rw [if_pos h2]
      · rw [if_neg h2, if_neg (not_not_intro ht)]
        exact ih (steps + 1) _ steps rfl
    · rw [if_neg h1]

/-- Concrete run used by the C3/C4 counterexamples and witnesses: on
`navDemoParam` (range `[0,1]`, step `3/5`, constant formatter) a step up from
0 requests `3/5`; the second candidate `3/5 + 3/5 = 6/5` leaves the range, so
the loop exits with the first candidate `3/5` — not the boundary `1`. -/
theorem navDemo_eval : onSliderChange navDemoParam 0 ("x") (3/5) = some (3/5) := by
  have hfuel : sliderFuel navDemoParam = 7 := by
    have hnum : ((navDemoParam.max - navDemoParam.min) / navDemoParam.step).num = 5 := by
      norm_num [navDemoParam]
    rw [sliderFuel, hnum]
    rfl
  unfold onSliderChange
  rw [if_neg (by norm_num [navDemoParam]), hfuel,
    if_neg (show ¬ (3/5 : ℚ) < 0 by norm_num)]
  show some (snapLoop navDemoParam (3/5) navDemoParam.step ("x") (6 + 1) (3/5) 1) =
    some (3/5)
  rw [snapLoop,
    if_pos (by constructor <;> norm_num [navDemoParam]),
    if_neg (by simp [navDemoParam]),
    if_neg (by simp [navDemoParam])]
  show some (snapLoop navDemoParam (3/5) navDemoParam.step ("x") (5 + 1)
    (3/5 + navDemoParam.step * ((1 : Nat) : ℚ)) 2) = some (3/5)
  rw [snapLoop, if_neg (by norm_num [navDemoParam])]

/-- C3 (amended): whenever `onSliderChange` commits a value whose formatted
text still equals the cached text of the pre-step value, that committed value
is the originally requested first candidate (`v + step` for a positive step
command) — it need not be clamped at `max`.  Any other committed value has
formatted text different from the cached text. -/
theorem onSliderChange_distinct_or_first (p : NavParam) (val : ℚ) (valText : String)
    (newVal v' : ℚ) (h : onSliderChange p val valText newVal = some v')
    (hv : p.getValueText v' = valText) : v' = newVal := by
  unfold onSliderChange at h
  by_cases h0 : newVal = val ∨ newVal < p.min ∨ p.max < newVal
  · rw [if_pos h0] at h; exact Option.noConfusion h
  · rw [if_neg h0] at h
    injection h with h
    rcases snapLoop_result p newVal (if newVal < val then -p.step else p.step)
      valText (sliderFuel p) newVal 1 with hr | hr
    · rw [← h]; exact hr
    · rw [← h] at hv; exact absurd hv hr

theorem onSliderChange_distinct_or_first_witness :
    onSliderChange navDemoParam 0 ("x") (3/5) = some (3/5) ∧ (3/5 : ℚ) = 3/5 :=
  ⟨navDemo_eval, onSliderChange_distinct_or_first navDemoParam 0 ("x") (3/5) (3/5)
    navDemo_eval rfl⟩

/-- C3 counterexample: `navDemoParam` formats `v = 0` and `v + step = 3/5`
identically ("x"), yet the positive step command commits `3/5`, whose text
equals the text of `0`, and `3/5` is strictly below `max = 1` — so a value
with unchanged text is committed without being clamped at `max`, refuting the
claim as stated. -/
theorem onSliderChange_equal_text_cex :
    navDemoParam.getValueText 0 = "x" ∧
    navDemoParam.getValueText (0 + navDemoParam.step) = navDemoParam.getValueText 0 ∧
    onSliderChange navDemoParam 0 ("x") (0 + navDemoParam.step) = some (3/5) ∧
    navDemoParam.getValueText (3/5) = navDemoParam.getValueText 0 ∧
    (3/5 : ℚ) < navDemoParam.max := by
  refine ⟨rfl, rfl, ?_, rfl, by norm_num [navDemoParam]⟩
  have h : (0 : ℚ) + navDemoParam.step = 3/5 := by norm_num [navDemoParam]
  rw [h]
  exact navDemo_eval

/-- C4 (amended): when every candidate inside `[min, max]` formats to the
cached text (so a candidate falls outside the range before a text-distinct
candidate is found), the loop stops at the range check and `onSliderChange`
commits the originally requested first candidate — which itself lies within
`[min, max]` — rather than clamping to the boundary. -/
theorem onSliderChange_range_exit (p : NavParam) (val : ℚ) (valText : String)
    (newVal : ℚ)
    (h0 : ¬ (newVal = val ∨ newVal < p.min ∨ p.max < newVal))
    (hall : ∀ j : Nat,
      p.min ≤ newVal + (if newVal < val then -p.step else p.step) * (j : ℚ) ∧
        newVal + (if newVal < val then -p.step else p.step) * (j : ℚ) ≤ p.max →
      p.getValueText
        (newVal + (if newVal < val then -p.step else p.step) * (j : ℚ)) = valText) :
    onSliderChange p val valText newVal = some newVal := by
  unfold onSliderChange
  rw [if_neg h0]
  congr 1
  exact snapLoop_const p newVal _ valText hall (sliderFuel p) 1 newVal 0 (by push_cast; ring)

theorem onSliderChange_range_exit_witness :
    onSliderChange navDemoParam 0 ("x") (3/5) = some (3/5) :=
  onSliderChange_range_exit navDemoParam 0 ("x") (3/5)
    (by norm_num [navDemoParam]) (fun j _ => rfl)

/-- C4 counterexample: on `navDemoParam` the second candidate
`3/5 + 3/5 * 1 = 6/5` falls outside `[0, 1]` before any text-distinct
candidate is found, yet the navigator commits `3/5`, not the boundary
`max = 1` — the code never clamps to the boundary, refuting the claim as
stated. -/
theorem onSliderChange_no_clamp_cex :
    onSliderChange navDemoParam 0 ("x") (3/5) = some (3/5) ∧
    ¬ (navDemoParam.min ≤ 3/5 + navDemoParam.step * 1 ∧
       3/5 + navDemoParam.step * 1 ≤ navDemoParam.max) ∧
    (3/5 : ℚ) ≠ navDemoParam.max ∧
    navDemoParam.getValueText 0 = "x" := by
  refine ⟨navDemo_eval, by norm_num [navDemoParam], by norm_num [navDemoParam], rfl⟩

/-! ### Theorems: Param constructors and providers (C5-C8) -/

theorem fxParamSteps_fst (mn mx s l : ℚ) (hs : s ≠ 0) :
    (fxParamSteps mn mx s l).1 = s := by
  unfold fxParamSteps
  rw [if_pos hs]
  split_ifs <;> rfl

/-- C5: for an FX-numbered parameter with host-reported `min ≤ max`: if the
host reports no step (`s = 0`), then `step = (max-min)/1000` and
`largeStep = 20*step`; if the host reports a positive step but no large step,
then `largeStep` is `(max-min)/50` rounded down to an integer multiple of
`step` (`step * ⌊((max-min)/50)/step⌋`), raised to `step` itself when that
rounding yields 0. -/
theorem fxParam_step_synthesis (mn mx s l : ℚ) (hr : mn ≤ mx) :
    (s = 0 →
      fxParamSteps mn mx s l = ((mx - mn) / 1000, 20 * ((mx - mn) / 1000))) ∧
    (0 < s → l = 0 →
      fxParamSteps mn mx s l =
        (s, if s * ((⌊((mx - mn) / 50) / s⌋ : ℤ) : ℚ) = 0 then s
            else s * ((⌊((mx - mn) / 50) / s⌋ : ℤ) : ℚ))) := by
  constructor
  · intro hs
    unfold fxParamSteps
    rw [if_neg (not_not_intro hs), mul_comm]
  · intro hs hl
    unfold fxParamSteps
    rw [if_pos (ne_of_gt hs), if_pos hl]
    have hq : (0 : ℚ) ≤ ((mx - mn) / 50) / s := by
      apply div_nonneg
      · apply div_nonneg
        · linarith
        · norm_num
      · exact le_of_lt hs
    have htr : truncQ (((mx - mn) / 50) / s) = ⌊((mx - mn) / 50) / s⌋ := by
      unfold truncQ
      rw [if_neg (not_lt.mpr hq)]
    rw [htr]
    split_ifs <;> rfl

theorem fxParam_step_synthesis_witness :
    (0 : ℚ) ≤ 1 ∧
    fxParamSteps 0 1 (1/10) 0 =
      (1/10, if (1/10 : ℚ) * ((⌊((1 - 0 : ℚ) / 50) / (1/10)⌋ : ℤ) : ℚ) = 0 then 1/10
             else (1/10 : ℚ) * ((⌊((1 - 0 : ℚ) / 50) / (1/10)⌋ : ℤ) : ℚ)) :=
  ⟨by norm_num,
   (fxParam_step_synthesis 0 1 (1/10) 0 (by norm_num)).2 (by norm_num) rfl⟩

/-- C6 (amended): `min ≤ max` and `step > 0` hold unconditionally for the
toggle, volume, pan and length `Param`s, for every enumerated named-config
`Param` over a nonempty table (all tables in the program are nonempty), and
for an FX-numbered `Param` whenever the host reports `min ≤ max` together
with either a positive step or no step and `min < max`.  (With arbitrary
host reports the invariant can fail — see the counterexample.) -/
theorem param_invariants (values : List (String × String)) (mn mx s l : ℚ)
    (hv : values ≠ []) (hr : mn ≤ mx) (hs : 0 < s ∨ (s = 0 ∧ mn < mx)) :
    (toggleParamFields.min ≤ toggleParamFields.max ∧ 0 < toggleParamFields.step) ∧
    (volParamFields.min ≤ volParamFields.max ∧ 0 < volParamFields.step) ∧
    (panParamFields.min ≤ panParamFields.max ∧ 0 < panParamFields.step) ∧
    (lenParamFields.min ≤ lenParamFields.max ∧ 0 < lenParamFields.step) ∧
    ((fxNamedConfigParamFields values).min ≤ (fxNamedConfigParamFields values).max ∧
      0 < (fxNamedConfigParamFields values).step) ∧
    ((fxParamFields mn mx s l).min ≤ (fxParamFields mn mx s l).max ∧
      0 < (fxParamFields mn mx s l).step) := by
  refine ⟨⟨by norm_num [toggleParamFields], by norm_num [toggleParamFields]⟩,
    ⟨by norm_num [volParamFields], by norm_num [volParamFields]⟩,
    ⟨by norm_num [panParamFields], by norm_num [panParamFields]⟩,
    ⟨by norm_num [lenParamFields], by norm_num [lenParamFields]⟩,
    ⟨?_, by norm_num [fxNamedConfigParamFields]⟩, ⟨hr, ?_⟩⟩
  · show (0 : ℚ) ≤ (values.length : ℚ) - 1
    have h1 : 0 < values.length := List.length_pos.mpr hv
    have h2 : (1 : ℚ) ≤ (values.length : ℚ) := by exact_mod_cast h1
    linarith
  · show 0 < (fxParamSteps mn mx s l).1
    rcases hs with hpos | ⟨hz, hlt⟩
    · rw [fxParamSteps_fst mn mx s l (ne_of_gt hpos)]
      exact hpos
    · unfold fxParamSteps
      rw [if_neg (not_not_intro hz)]
      show 0 < (mx - mn) / 1000
      apply div_pos
      · linarith
      · norm_num

theorem param_invariants_witness :
    (0 : ℚ) ≤ 4 ∧
    ((fxParamFields 0 4 (1/2) 0).min ≤ (fxParamFields 0 4 (1/2) 0).max ∧
      0 < (fxParamFields 0 4 (1/2) 0).step) :=
  ⟨by norm_num,
   (param_invariants toggleFxNamedConfigParamValues 0 4 (1/2) 0
     (by simp [toggleFxNamedConfigParamValues]) (by norm_num)
     (Or.inl (by norm_num))).2.2.2.2.2⟩

/-- C6 counterexample: an FX-numbered `Param` constructed from a host that
reports `min = max = 0` and no step sizes gets `step = (0-0)/1000 = 0`,
violating `step > 0` — the constructor has no guard, so the invariant as
stated does not hold for every constructible `Param`. -/
theorem param_invariants_cex :
    (fxParamFields 0 0 0 0).min ≤ (fxParamFields 0 0 0 0).max ∧
    ¬ 0 < (fxParamFields 0 0 0 0).step := by
  constructor
  · norm_num [fxParamFields]
  · show ¬ 0 < (fxParamSteps 0 0 0 0).1
    unfold fxParamSteps
    norm_num

theorem lookupOrdinal_lt_length (raw : String) :
    ∀ (values : List (String × String)) (i : Nat),
      lookupOrdinal raw values = some i → i < values.length := by
  intro values
  induction values with
  | nil => intro i h; exact Option.noConfusion h
  | cons v rest ih =>
    intro i h
    unfold lookupOrdinal at h
    by_cases hv : v.2 = raw
    · rw [if_pos hv] at h
      injection h with h
      subst h
      simp
    · rw [if_neg hv] at h
      rcases h0 : lookupOrdinal raw rest with _ | j
      · rw [h0] at h; exact Option.noConfusion h
      · rw [h0] at h
        injection h with h
        subst h
        have := ih j h0
        simpa using Nat.succ_lt_succ this

theorem lookupOrdinal_none (raw : String) :
    ∀ (values : List (String × String)), (∀ v ∈ values, v.2 ≠ raw) →
      lookupOrdinal raw values = none := by
  intro values
  induction values with
  | nil => intro _; rfl
  | cons v rest ih =>
    intro hall
    unfold lookupOrdinal
    rw [if_neg (hall v (List.mem_cons_self v rest)),
      ih (fun w hw => hall w (List.mem_cons_of_mem v hw))]
    rfl

/-- C7: for an enumerated named-config `Param` over a nonempty N-entry table,
`getValue()` returns a natural ordinal in `[0, N-1]` for every raw token the
host may report, and returns ordinal 0 whenever the token is empty or matches
no entry of the table. -/
theorem fxNamedConfigParam_getValue_range (values : List (String × String))
    (raw : String) (hv : 0 < values.length) :
    (∃ n : Nat, fxNamedConfigGetValue values raw = (n : ℚ) ∧
      n ≤ values.length - 1) ∧
    ((raw = "" ∨ ∀ v ∈ values, v.2 ≠ raw) →
      fxNamedConfigGetValue values raw = 0) := by
  constructor
  · unfold fxNamedConfigGetValue
    by_cases hr : raw = ""
    · rw [if_pos hr]
      exact ⟨0, by norm_num, by omega⟩
    · rw [if_neg hr]
      rcases h0 : lookupOrdinal raw values with _ | i
      · exact ⟨0, by norm_num, by omega⟩
      · refine ⟨i, rfl, ?_⟩
        have := lookupOrdinal_lt_length raw values i h0
        omega
  · intro hcase
    unfold fxNamedConfigGetValue
    rcases hcase with hr | hall
    · rw [if_pos hr]
    · by_cases hr : raw = ""
      · rw [if_pos hr]
      · rw [if_neg hr, lookupOrdinal_none raw values hall]

theorem fxNamedConfigParam_getValue_range_witness :
    0 < reaEqBandTypeValues.length ∧
    fxNamedConfigGetValue reaEqBandTypeValues ("zzz") = 0 :=
  ⟨by simp [reaEqBandTypeValues],
   (fxNamedConfigParam_getValue_range reaEqBandTypeValues ("zzz")
     (by simp [reaEqBandTypeValues])).2 (Or.inr (by decide))⟩

/-- C8: for the volume `Param`, with or without the polarity-flip flag,
`setValueFromEdited` on text beginning "-inf" writes the mute value and a
subsequent `getValue()` returns 0 in the normalized (non-flipped) frame:
the sign inversion applied on write is compensated on read. -/
theorem volParam_minus_inf (flip : Bool) (parseDb : String → ℚ) (text : String)
    (h : text.toList.take 4 = ['-', 'i', 'n', 'f']) :
    volGetValue flip (volSetValueFromEdited flip parseDb text) = 0 := by
  unfold volSetValueFromEdited
  rw [if_pos h]
  unfold volGetValue volSetRaw
  cases flip <;> simp

theorem volParam_minus_inf_witness :
    (("-inf").toList.take 4 = ['-', 'i', 'n', 'f']) ∧
    volGetValue true (volSetValueFromEdited true (fun _ => 1) ("-inf")) = 0 :=
  ⟨by decide, volParam_minus_inf true (fun _ => 1) ("-inf") (by decide)⟩

/-! ### Theorems: shortenFxName (C9) -/

theorem takeWhile_append_of (p : Char → Bool) :
    ∀ (as : List Char) (b : Char) (bs : List Char),
      (∀ a ∈ as, p a = true) → p b = false →
      List.takeWhile p (as ++ b :: bs) = as := by
  intro as
  induction as with
  | nil =>
    intro b bs _ hb
    simp [List.takeWhile_cons, hb]
  | cons a as ih =>
    intro b bs hall hb
    rw [List.cons_append, List.takeWhile_cons,
      if_pos (hall a (List.mem_cons_self a as)),
      ih b bs (fun x hx => hall x (List.mem_cons_of_mem a hx)) hb]

theorem dropWhile_append_of (p : Char → Bool) :
    ∀ (as : List Char) (b : Char) (bs : List Char),
      (∀ a ∈ as, p a = true) → p b = false →
      List.dropWhile p (as ++ b :: bs) = b :: bs := by
  intro as
  induction as with
  | nil =>
    intro b bs _ hb
    simp [List.dropWhile_cons, hb]
  | cons a as ih =>
    intro b bs hall hb
    rw [List.cons_append, List.dropWhile_cons,
      if_pos (hall a (List.mem_cons_self a as)),
      ih b bs (fun x hx => hall x (List.mem_cons_of_mem a hx)) hb]

theorem findOpenParen_none_cons (c : Char) (t : List Char)
    (h : findOpenParen (c :: t) = none) : findOpenParen t = none := by
  unfold findOpenParen at h
  by_cases hc : c = ' ' ∧ t.head? = some '('
  · rw [if_pos hc] at h; exact Option.noConfusion h
  · rw [if_neg hc] at h
    rcases h0 : findOpenParen t with _ | j
    · rfl
    · rw [h0] at h; exact Option.noConfusion h

theorem findOpenParen_append (ys : List Char) :
    ∀ (xs : List Char), findOpenParen xs = none →
      findOpenParen (xs ++ ' ' :: '(' :: ys) = some xs.length := by
  intro xs
  induction xs with
  | nil => intro _; rfl
  | cons c rest ih =>
    intro h
    unfold findOpenParen at h ⊢
    by_cases hc : c = ' ' ∧ rest.head? = some '('
    · rw [if_pos hc] at h; exact Option.noConfusion h
    · rw [if_neg hc] at h
      have hrest : findOpenParen rest = none := by
        rcases h0 : findOpenParen rest with _ | j
        · rfl
        · rw [h0] at h; exact Option.noConfusion h
      have hc2 : ¬ (c = ' ' ∧ (rest ++ ' ' :: '(' :: ys).head? = some '(') := by
        cases rest with
        | nil => simp
        | cons r t => simpa using hc
      show (if c = ' ' ∧ (rest ++ ' ' :: '(' :: ys).head? = some '(' then some 0
        else Option.map (fun x => x + 1) (findOpenParen (rest ++ ' ' :: '(' :: ys))) =
        some (c :: rest).length
      rw [if_neg hc2, ih hrest]
      rfl

theorem shortenQualSplit_qual (name q : List Char)
    (hname : name ≠ []) (hnp : findOpenParen name = none) :
    shortenQualSplit (name ++ (' ' :: '(' :: (q ++ [')']))) = name.length := by
  unfold shortenQualSplit
  have hlast : (name ++ (' ' :: '(' :: (q ++ [')']))).getLast? = some ')' := by
    rw [show name ++ (' ' :: '(' :: (q ++ [')'])) =
      (name ++ (' ' :: '(' :: q)) ++ [')'] by simp]
    exact List.getLast?_concat _
  rw [if_pos hlast]
  rcases name with _ | ⟨c, t⟩
  · exact absurd rfl hname
  · rw [show List.drop 1 ((c :: t) ++ (' ' :: '(' :: (q ++ [')']))) =
        t ++ ' ' :: '(' :: (q ++ [')']) by simp,
      findOpenParen_append (q ++ [')']) t (findOpenParen_none_cons c t hnp)]
    simp

theorem shortenQualSplit_all (body : List Char) (hnp : findOpenParen body = none) :
    shortenQualSplit body = body.length := by
  unfold shortenQualSplit
  by_cases hl : body.getLast? = some ')'
  · rw [if_pos hl]
    rcases body with _ | ⟨c, t⟩
    · rfl
    · rw [show List.drop 1 (c :: t) = t from rfl,
        findOpenParen_none_cons c t hnp]
  · rw [if_neg hl]

theorem any_lineTerm_false (l : List Char) (h : ∀ c ∈ l, isLineTerm c = false) :
    l.any isLineTerm = false := by
  cases hx : l.any isLineTerm
  · rfl
  · obtain ⟨c, hc, hcp⟩ := List.any_eq_true.mp hx
    rw [h c hc] at hcp
    exact Bool.noConfusion hcp

theorem isEmpty_false_of_ne_nil (l : List Char) (h : l ≠ []) : l.isEmpty = false := by
  cases l with
  | nil => exact absurd rfl h
  | cons a t => rfl

theorem shortenFxName_mk_vendor (w body : List Char)
    (hword : ∀ c ∈ w, isWordChar c = true) :
    shortenFxName (String.mk (w ++ ':' :: ' ' :: body)) =
      shortenCore (String.mk (w ++ ':' :: ' ' :: body)) w body := by
  unfold shortenFxName
  rw [show (String.mk (w ++ ':' :: ' ' :: body)).data = w ++ ':' :: ' ' :: body
      from rfl,
    dropWhile_append_of isWordChar w ':' (' ' :: body) hword (by decide)]
  show shortenCore (String.mk (w ++ ':' :: ' ' :: body))
      (List.takeWhile isWordChar (String.mk (w ++ ':' :: ' ' :: body)).data) body =
    shortenCore (String.mk (w ++ ':' :: ' ' :: body)) w body
  rw [show (String.mk (w ++ ':' :: ' ' :: body)).data = w ++ ':' :: ' ' :: body
      from rfl,
    takeWhile_append_of isWordChar w ':' (' ' :: body) hword (by decide)]

theorem shortenFxName_vendor_qual (w name q : List Char) (hw : w ≠ [])
    (hword : ∀ c ∈ w, isWordChar c = true) (hname : name ≠ [])
    (hnp : findOpenParen name = none)
    (hlt1 : ∀ c ∈ name, isLineTerm c = false)
    (hlt2 : ∀ c ∈ q, isLineTerm c = false) :
    shortenFxName
        (String.mk (w ++ ':' :: ' ' :: (name ++ (' ' :: '(' :: (q ++ [')']))))) =
      String.mk (if w = ['J', 'S'] then name ++ (' ' :: '(' :: (q ++ [')'])) else name) := by
  rw [shortenFxName_mk_vendor w (name ++ (' ' :: '(' :: (q ++ [')']))) hword]
  unfold shortenCore
  have hbody : (name ++ (' ' :: '(' :: (q ++ [')']))).isEmpty = false := by
    apply isEmpty_false_of_ne_nil
    cases name <;> simp
  have hany : (name ++ (' ' :: '(' :: (q ++ [')']))).any isLineTerm = false := by
    apply any_lineTerm_false
    intro c hc
    rcases List.mem_append.mp hc with h | h
    · exact hlt1 c h
    · rcases List.mem_cons.mp h with h1 | h
      · subst h1; decide
      · rcases List.mem_cons.mp h with h1 | h
        · subst h1; decide
        · rcases List.mem_append.mp h with h1 | h1
          · exact hlt2 c h1
          · have h2 : c = ')' := List.mem_singleton.mp h1
            subst h2; decide
  rw [if_neg (by
    rw [isEmpty_false_of_ne_nil w hw, hbody, hany]
    simp)]
  rw [shortenQualSplit_qual name q hname hnp]
  rw [List.take_left name (' ' :: '(' :: (q ++ [')'])),
    List.drop_left name (' ' :: '(' :: (q ++ [')']))]

theorem shortenFxName_vendor_plain (w body : List Char) (hw : w ≠ [])
    (hword : ∀ c ∈ w, isWordChar c = true) (hbody : body ≠ [])
    (hnp : findOpenParen body = none)
    (hlt : ∀ c ∈ body, isLineTerm c = false) :
    shortenFxName (String.mk (w ++ ':' :: ' ' :: body)) = String.mk body := by
  rw [shortenFxName_mk_vendor w body hword]
  unfold shortenCore
  rw [if_neg (by
    rw [isEmpty_false_of_ne_nil w hw, isEmpty_false_of_ne_nil body hbody,
      any_lineTerm_false body hlt]
    simp)]
  rw [shortenQualSplit_all body hnp, List.take_length, List.drop_length,
    List.append_nil]
  simp

theorem shortenFxName_unchanged (nm : String)
    (hno : ¬ ∃ w body : List Char, nm.data = w ++ ':' :: ' ' :: body ∧ w ≠ [] ∧
      (∀ c ∈ w, isWordChar c = true) ∧ body ≠ [] ∧
      body.any isLineTerm = false) :
    shortenFxName nm = nm := by
  unfold shortenFxName
  split
  · next body heq =>
    have hdecomp : nm.data = nm.data.takeWhile isWordChar ++ ':' :: ' ' :: body := by
      rw [← heq, List.takeWhile_append_dropWhile]
    have hword : ∀ c ∈ nm.data.takeWhile isWordChar, isWordChar c = true :=
      fun c hc => List.mem_takeWhile_imp hc
    have hdis : nm.data.takeWhile isWordChar = [] ∨ body = [] ∨
        body.any isLineTerm = true := by
      by_contra hcon
      push_neg at hcon
      obtain ⟨hwne, hbne, hanyne⟩ := hcon
      have hanyf : body.any isLineTerm = false := by
        revert hanyne
        cases body.any isLineTerm <;> simp
      exact hno ⟨nm.data.takeWhile isWordChar, body, hdecomp, hwne, hword, hbne, hanyf⟩
    unfold shortenCore
    rcases hdis with h | h | h
    · rw [if_pos (by rw [h]; rfl)]
    · rw [if_pos (by rw [h]; simp)]
    · rw [if_pos (by rw [h]; simp)]
  · rfl

/-- C9 (amended): for an effect name of the form
`<word>: <name> (<qualifier>)` — with a nonempty all-word-character vendor,
nonempty `<name>` containing no `" ("` (which disambiguates the split) and no
line terminators — `shortenFxName` outputs only `<name>`, keeping the trailing
parenthesised qualifier exactly when the vendor is "JS"; a vendor-prefixed
name without such a qualifier outputs its body unchanged after the prefix is
stripped; and a name *not* of the vendor-prefixed form
`<word>: <rest>` (nonempty word and rest, no line terminators) is output
unchanged.  (The claim's last clause is amended: names of the vendor form
without a trailing qualifier, e.g. "VST: Foo", are still shortened.) -/
theorem shortenFxName_spec :
    (∀ w name q : List Char, w ≠ [] → (∀ c ∈ w, isWordChar c = true) →
      name ≠ [] → findOpenParen name = none →
      (∀ c ∈ name, isLineTerm c = false) → (∀ c ∈ q, isLineTerm c = false) →
      shortenFxName
          (String.mk (w ++ ':' :: ' ' :: (name ++ (' ' :: '(' :: (q ++ [')']))))) =
        String.mk (if w = ['J', 'S'] then name ++ (' ' :: '(' :: (q ++ [')']))
          else name)) ∧
    (∀ w body : List Char, w ≠ [] → (∀ c ∈ w, isWordChar c = true) →
      body ≠ [] → findOpenParen body = none →
      (∀ c ∈ body, isLineTerm c = false) →
      shortenFxName (String.mk (w ++ ':' :: ' ' :: body)) = String.mk body) ∧
    (∀ nm : String,
      (¬ ∃ w body : List Char, nm.data = w ++ ':' :: ' ' :: body ∧ w ≠ [] ∧
        (∀ c ∈ w, isWordChar c = true) ∧ body ≠ [] ∧
        body.any isLineTerm = false) →
      shortenFxName nm = nm) :=
  ⟨shortenFxName_vendor_qual, shortenFxName_vendor_plain, shortenFxName_unchanged⟩

theorem shortenFxName_spec_witness :
    shortenFxName ("VST: ReaEQ (Cockos)") = ("ReaEQ") := by
  have h := shortenFxName_spec.1 (['V', 'S', 'T']) (['R', 'e', 'a', 'E', 'Q'])
    (['C', 'o', 'c', 'k', 'o', 's']) (by decide) (by decide) (by decide)
    (by decide) (by decide) (by decide)
  rw [if_neg (by decide)] at h
  exact h

/-- C9 counterexample: "VST: Foo" is not of the claimed form
`<word>: <name> (<qualifier>)` (it does not even end with ')'), yet
`shortenFxName` outputs "Foo", not the input unchanged — refuting the
claim's final clause. -/
theorem shortenFxName_unchanged_cex :
    shortenFxName ("VST: Foo") = ("Foo") ∧
    ("VST: Foo" : String) ≠ ("Foo") ∧
    ("VST: Foo" : String).data.getLast? ≠ some ')' := by
  refine ⟨by decide, by decide, by decide⟩

/-! ### Theorems: getParamName number suffix (C10) -/

theorem ndAux_fuel : ∀ (n f1 f2 : Nat) (acc : List Char), n < f1 → n < f2 →
    natDecimalAux f1 n acc = natDecimalAux f2 n acc := by
  intro n
  induction n using Nat.strong_induction_on with
  | _ n ih =>
    intro f1 f2 acc h1 h2
    match f1, h1 with
    | f1 + 1, h1 =>
      match f2, h2 with
      | f2 + 1, h2 =>
        rw [natDecimalAux, natDecimalAux]
        by_cases hn : n < 10
        · rw [if_pos hn, if_pos hn]
        · rw [if_neg hn, if_neg hn]
          have hd : n / 10 < n := Nat.div_lt_self (by omega) (by omega)
          exact ih (n / 10) hd f1 f2 _ (by omega) (by omega)

theorem ndAux_append : ∀ (n : Nat) (acc : List Char),
    natDecimalAux (n + 1) n acc = natDecimal n ++ acc := by
  intro n
  induction n using Nat.strong_induction_on with
  | _ n ih =>
    intro acc
    by_cases hn : n < 10
    · rw [natDecimalAux, if_pos hn, natDecimal, natDecimalAux, if_pos hn]
      rfl
    · have hd : n / 10 < n := Nat.div_lt_self (by omega) (by omega)
      have hstep : ∀ a : List Char, natDecimalAux (n + 1) n a =
          natDecimal (n / 10) ++ (Char.ofNat (48 + n % 10) :: a) := by
        intro a
        rw [natDecimalAux, if_neg hn,
          ndAux_fuel (n / 10) n (n / 10 + 1) _ (by omega) (by omega),
          ih (n / 10) hd]
      rw [hstep acc]
      conv_rhs => rw [natDecimal]
      rw [hstep ([])]
      simp

theorem natDecimal_step (n : Nat) :
    natDecimal n = if n < 10 then [Char.ofNat (48 + n % 10)]
      else natDecimal (n / 10) ++ [Char.ofNat (48 + n % 10)] := by
  by_cases hn : n < 10
  · rw [if_pos hn, natDecimal, natDecimalAux, if_pos hn]
  · have hd : n / 10 < n := Nat.div_lt_self (by omega) (by omega)
    rw [if_neg hn, natDecimal, natDecimalAux, if_neg hn,
      ndAux_fuel (n / 10) n (n / 10 + 1) _ (by omega) (by omega),
      ndAux_append (n / 10)]

theorem digitChar_toNat : ∀ k, k < 10 → (Char.ofNat (48 + k)).toNat = 48 + k := by
  decide

theorem digitChar_isDigit : ∀ k, k < 10 →
    isDigitCh (Char.ofNat (48 + k)) = true := by
  decide

theorem natDecimal_digits : ∀ (n : Nat), ∀ c ∈ natDecimal n, isDigitCh c = true := by
  intro n
  induction n using Nat.strong_induction_on with
  | _ n ih =>
    intro c hc
    by_cases hn : n < 10
    · rw [natDecimal_step n, if_pos hn] at hc
      have h : c = Char.ofNat (48 + n % 10) := List.mem_singleton.mp hc
      subst h
      exact digitChar_isDigit (n % 10) (by omega)
    · rw [natDecimal_step n, if_neg hn] at hc
      rcases List.mem_append.mp hc with h | h
      · exact ih (n / 10) (Nat.div_lt_self (by omega) (by omega)) c h
      · have h2 : c = Char.ofNat (48 + n % 10) := List.mem_singleton.mp h
        subst h2
        exact digitChar_isDigit (n % 10) (by omega)

theorem natDecimal_ne_nil (n : Nat) : natDecimal n ≠ [] := by
  rw [natDecimal_step n]
  by_cases hn : n < 10
  · rw [if_pos hn]; simp
  · rw [if_neg hn]; simp

theorem decValue_append_digit (xs : List Char) (c : Char) :
    decValue (xs ++ [c]) = 10 * decValue xs + digitVal c := by
  unfold decValue
  rw [List.foldl_append]
  rfl

theorem decValue_natDecimal : ∀ n, decValue (natDecimal n) = n := by
  intro n
  induction n using Nat.strong_induction_on with
  | _ n ih =>
    by_cases hn : n < 10
    · rw [natDecimal_step n, if_pos hn]
      show 10 * 0 + digitVal (Char.ofNat (48 + n % 10)) = n
      unfold digitVal
      rw [digitChar_toNat (n % 10) (by omega)]
      omega
    · rw [natDecimal_step n, if_neg hn, decValue_append_digit,
        ih (n / 10) (Nat.div_lt_self (by omega) (by omega))]
      unfold digitVal
      rw [digitChar_toNat (n % 10) (by omega)]
      omega

theorem extractParamNum_eval (x : List Char) (p : Nat) :
    extractParamNum (x ++ (' ' :: '(' :: (natDecimal p ++ [')']))) = some p := by
  have hdig : ∀ c ∈ (natDecimal p).reverse, isDigitCh c = true := fun c hc =>
    natDecimal_digits p c (List.mem_reverse.mp hc)
  have hrev : (x ++ (' ' :: '(' :: (natDecimal p ++ [')']))).reverse =
      ')' :: ((natDecimal p).reverse ++ ('(' :: ' ' :: x.reverse)) := by
    simp
  have hdw : ((natDecimal p).reverse ++ ('(' :: ' ' :: x.reverse)).dropWhile
        isDigitCh = '(' :: ' ' :: x.reverse :=
    dropWhile_append_of isDigitCh (natDecimal p).reverse '(' (' ' :: x.reverse)
      hdig (by decide)
  have htw : ((natDecimal p).reverse ++ ('(' :: ' ' :: x.reverse)).takeWhile
        isDigitCh = (natDecimal p).reverse :=
    takeWhile_append_of isDigitCh (natDecimal p).reverse '(' (' ' :: x.reverse)
      hdig (by decide)
  have htail : (')' :: ((natDecimal p).reverse ++ ('(' :: ' ' :: x.reverse))).tail =
      (natDecimal p).reverse ++ ('(' :: ' ' :: x.reverse) := rfl
  unfold extractParamNum
  rw [hrev]
  rw [if_pos ⟨rfl, by rw [htail, hdw]; rfl, by
    rw [htail, htw]
    intro h
    exact natDecimal_ne_nil p (by simpa using h)⟩]
  rw [htail, htw, List.reverse_reverse, decValue_natDecimal p]

/-- C10: every display name produced by `getParamName` ends with the suffix
`" (p)"` containing the parameter number `p` itself; consequently, for any
two distinct in-range indices `p` and `q` of the same source the names
differ, even when the underlying host-reported parameter names are
identical. -/
theorem getParamName_suffix_inj (namedNames : List (List Char))
    (hostName : Nat → List Char) (numParams : Nat) (p q : Nat)
    (hp : p < namedNames.length + numParams)
    (hq : q < namedNames.length + numParams) (hne : p ≠ q) :
    (∃ pre : List Char, (getParamName namedNames hostName p).data =
      pre ++ (' ' :: '(' :: (natDecimal p ++ [')']))) ∧
    getParamName namedNames hostName p ≠ getParamName namedNames hostName q := by
  constructor
  · exact ⟨_, rfl⟩
  · intro heq
    have hdata : (getParamName namedNames hostName p).data =
        (getParamName namedNames hostName q).data := by rw [heq]
    have h1 := extractParamNum_eval
      (if h : p < namedNames.length then namedNames.get ⟨p, h⟩
        else hostName (p - namedNames.length)) p
    have h2 := extractParamNum_eval
      (if h : q < namedNames.length then namedNames.get ⟨q, h⟩
        else hostName (q - namedNames.length)) q
    have hpq : some p = some q :=
      h1.symm.trans ((congrArg extractParamNum hdata).trans h2)
    exact hne (Option.some.inj hpq)

theorem getParamName_suffix_inj_witness :
    (3 : Nat) < 0 + 13 ∧
    getParamName [] (fun _ => ['F', 'r', 'e', 'q']) 3 ≠
      getParamName [] (fun _ => ['F', 'r', 'e', 'q']) 12 :=
  ⟨by decide,
   (getParamName_suffix_inj [] (fun _ => ['F', 'r', 'e', 'q']) 13 3 12
     (by decide) (by decide) (by decide)).2⟩
